import Mathlib

/-!
# A verification model of stubgen-pyx

The repository generates `.pyi` interface stubs from Cython (`.pyx`) modules.
The implementation itself is not part of the shown sources (which are dominated
by test fixtures, per the design document), so the pipeline below is modelled
from the design document (spec.md) and the repository README, and instantiated
on the fixture modules of `src/test_project/test2.pyx` (which contains the two
fixture modules `test2` and `test`, plus an embedded README).

Key modelling decisions, each traceable to the repository text:
* Visibility qualifiers: `cdef` members are implementation-only, `cpdef`
  members are hybrid (natively and dynamically callable), plain `def`/`class`
  declarations and `cdef public` attributes are public.
* Per the README Limitations section, `cpdef` members get the opaque type
  `object` unless overridden via an `__annotations__` overlay, and `cimport`-ed
  modules' imports are NOT followed: only the `__cimport_types__` override set
  produces synthesized stub imports.
-/

namespace StubGen

/-- Modelled from the spec: the native-visibility qualifier of a declaration
(`public` | `implementation-only` | `hybrid`).  The Extractor (not in the
shown sources) assigns `implOnly` to `cdef` members, `hybrid` to `cpdef`
members, and `pub` to plain `def`/`class` declarations and `cdef public`
attributes. -/
inductive Qual
  | pub
  | implOnly
  | hybrid
deriving DecidableEq

/-- Modelled from the spec: a type annotation, as a head name with generic
argument names (e.g. `List[bint]` is head `List`, args `[bint]`). -/
structure TyAnn where
  head : String
  args : List String
deriving DecidableEq

/-- The opaque "any object" fallback type of the spec, rendered `object`
per the README Limitations section. -/
def objTy : TyAnn := ⟨"object", []⟩

/-- Shorthand for an argument-free type annotation. -/
def ty0 (n : String) : TyAnn := ⟨n, []⟩

/-- A function signature: named parameters with optional annotations, and an
optional return annotation.  Static C types of native declarations are not
Python-facing annotations and are not recorded (per the README, `cpdef`
members are rendered with type `object` regardless of their C type). -/
structure FuncSig where
  params : List (String × Option TyAnn)
  ret : Option TyAnn
deriving DecidableEq

/-- Modelled from the spec: a class-level declaration (method, attribute,
property getter or property setter), tagged with its qualifier, docstring and
source order. -/
inductive Member
  | method (name : String) (q : Qual) (doc : Option String) (sig : FuncSig) (ord : Nat)
  | attr (name : String) (q : Qual) (ty : Option TyAnn) (ord : Nat)
  | getter (name : String) (ret : Option TyAnn) (doc : Option String) (ord : Nat)
  | setter (name : String) (vty : Option TyAnn) (ord : Nat)
deriving DecidableEq

/-- Modelled from the spec: a module-level declaration. -/
inductive TopDecl
  | cls (name : String) (q : Qual) (doc : Option String) (decos : List String)
      (members : List Member) (ord : Nat)
  | func (name : String) (q : Qual) (doc : Option String) (decos : List String)
      (sig : FuncSig) (ord : Nat)
  | attr (name : String) (ty : Option TyAnn) (ord : Nat)
deriving DecidableEq

/-- Modelled from the spec: one import binding recorded by the Extractor:
the name it binds in the module namespace, the source module path, the
original name in that module (for `as` renamings), whether it is a
`from ... import ...` form, and whether it is a `cimport` (the spec's
"import-following" qualifier).  `ord` is its source order. -/
structure ImpItem where
  bound : String
  srcMod : String
  origName : String
  isFrom : Bool
  following : Bool
  ord : Nat
deriving DecidableEq

/-- Modelled from the spec: a module: path, module docstring, import bindings,
declarations in source order, the `__cimport_types__` override set (type name
paired with its owning module path) and the `__annotations__` overlay
(qualified member name to type text). -/
structure Module where
  path : String
  doc : Option String
  imps : List ImpItem
  decls : List TopDecl
  cimportTypes : List (String × String)
  annotOverrides : List (String × TyAnn)
deriving DecidableEq

/-! ## Classifier (spec section 4.2) -/

/-- Membership decision by qualifier: implementation-only members are
excluded, public and hybrid members are included.  The decision never looks
at the declaration's name. -/
def includeQual : Qual → Bool
  | .implOnly => false
  | _ => true

/-- Membership decision for a class member: by qualifier for methods and
attributes; getters are included (collapsed to attributes), setters
contribute no separate output. -/
def keepMember : Member → Bool
  | .method _ q _ _ _ => includeQual q
  | .attr _ q _ _ => includeQual q
  | .getter _ _ _ _ => true
  | .setter _ _ _ => false

/-- Membership decision for a module-level declaration. -/
def keepTop : TopDecl → Bool
  | .cls _ q _ _ _ _ => includeQual q
  | .func _ q _ _ _ _ => includeQual q
  | .attr _ _ _ => true

/-- The closed set of recognized interface-affecting decorators (spec
section 4.2 and 9): decorators that change the inferred constructor, such as
`dataclass`, are preserved; all others are dropped. -/
def recognizedDecos : List String := ["dataclass"]

/-- Keep only interface-affecting decorators. -/
def keepDecos (ds : List String) : List String :=
  ds.filter (fun d => decide (d ∈ recognizedDecos))

/-- Look up an `__annotations__` override by qualified name. -/
def lookupOv (ovs : List (String × TyAnn)) (k : String) : Option TyAnn :=
  (ovs.find? (fun p => p.1 == k)).map (fun p => p.2)

/-- Rendered return type: an override wins; otherwise a hybrid (`cpdef`)
member with no Python-facing annotation falls back to the opaque type
(README: `cpdef` members are given the type `object`); a plain `def` keeps
its annotation, if any. -/
def renderRet (ovs : List (String × TyAnn)) (qn : String) (q : Qual)
    (r : Option TyAnn) : Option TyAnn :=
  match lookupOv ovs qn with
  | some t => some t
  | none =>
    match q with
    | .hybrid => some (r.getD objTy)
    | _ => r

/-- Rendered signature of a function or method. -/
def renderSig (ovs : List (String × TyAnn)) (qn : String) (q : Qual)
    (s : FuncSig) : FuncSig :=
  ⟨s.params, renderRet ovs qn q s.ret⟩

/-- Rendered type of an attribute: override, else declared type, else the
opaque type. -/
def renderAttrTy (ovs : List (String × TyAnn)) (qn : String)
    (ty : Option TyAnn) : TyAnn :=
  (lookupOv ovs qn).getD (ty.getD objTy)

/-- The parameter type of the setter matching property name `n`, if any. -/
def setterTyFor (ms : List Member) (n : String) : Option TyAnn :=
  ms.findSome? fun m =>
    match m with
    | .setter n2 (some t) _ => if n2 = n then some t else none
    | _ => none

/-- A class member of the rendered stub. -/
inductive SMember
  | mfun (name : String) (sig : FuncSig) (doc : Option String)
  | mattr (name : String) (ty : TyAnn)
deriving DecidableEq

/-- A module-level item of the rendered stub. -/
inductive STop
  | sclass (name : String) (doc : Option String) (decos : List String)
      (members : List SMember)
  | sfun (name : String) (doc : Option String) (decos : List String)
      (sig : FuncSig)
  | sattr (name : String) (ty : TyAnn)
deriving DecidableEq

/-- An import line of the rendered stub. -/
inductive SImp
  | plain (modName : String) (bound : String)
  | fromImp (modPath : String) (orig : String) (bound : String)
deriving DecidableEq

/-- The name an import line binds in the stub. -/
def sBound : SImp → String
  | .plain _ b => b
  | .fromImp _ _ b => b

/-- Classify one class member (spec section 4.2): implementation-only members
are dropped with their documentation; a getter collapses to a typed attribute
using the getter's return annotation (the matching setter's parameter type
only refines it when the getter has none — getter wins); setters contribute
no separate output. -/
def classifyMember (ovs : List (String × TyAnn)) (cn : String)
    (ms : List Member) : Member → Option SMember
  | .method n q doc sig _ =>
      if includeQual q then some (.mfun n (renderSig ovs (cn ++ n) q sig) doc)
      else none
  | .attr n q ty _ =>
      if includeQual q then some (.mattr n (renderAttrTy ovs (cn ++ n) ty))
      else none
  | .getter n r _ _ =>
      some (.mattr n (r.getD ((setterTyFor ms n).getD objTy)))
  | .setter _ _ _ => none

/-- Classify a class body, in source order. -/
def classifyMembers (ovs : List (String × TyAnn)) (cn : String)
    (ms : List Member) : List SMember :=
  ms.filterMap (classifyMember ovs cn ms)

/-- Classify one module-level declaration. -/
def classifyTop (ovs : List (String × TyAnn)) : TopDecl → Option STop
  | .cls n q doc decos ms _ =>
      if includeQual q then
        some (.sclass n doc (keepDecos decos) (classifyMembers ovs (n ++ ".") ms))
      else none
  | .func n q doc decos sig _ =>
      if includeQual q then
        some (.sfun n doc (keepDecos decos) (renderSig ovs n q sig))
      else none
  | .attr n ty _ => some (.sattr n (renderAttrTy ovs n ty))

/-- The classified (included) declarations of a module, in source order. -/
def classifiedTops (M : Module) : List STop :=
  M.decls.filterMap (classifyTop M.annotOverrides)

/-! ## Type references of the classified output -/

/-- Concatenation of a list-valued map (used to collect referenced names). -/
def catMap (f : α → List β) : List α → List β
  | [] => []
  | a :: as => f a ++ catMap f as

/-- Names referenced by a type annotation. -/
def tyNames (t : TyAnn) : List String := t.head :: t.args

/-- Names referenced by an optional type annotation. -/
def optTyNames : Option TyAnn → List String
  | none => []
  | some t => tyNames t

/-- Names referenced by a rendered signature. -/
def sigTyNames (s : FuncSig) : List String :=
  catMap (fun p => optTyNames p.2) s.params ++ optTyNames s.ret

/-- Type names referenced by a rendered class member. -/
def smemTyNames : SMember → List String
  | .mfun _ sig _ => sigTyNames sig
  | .mattr _ t => tyNames t

/-- Type names referenced by a rendered module-level item. -/
def stopTyNames : STop → List String
  | .sclass _ _ _ ms => catMap smemTyNames ms
  | .sfun _ _ _ sig => sigTyNames sig
  | .sattr _ t => tyNames t

/-- Preserved decorator names of a rendered module-level item. -/
def stopDecos : STop → List String
  | .sclass _ _ decos _ => decos
  | .sfun _ _ decos _ => decos
  | .sattr _ _ => []

/-- All type names referenced by the module's included, rendered
declarations. -/
def tyRefsOf (M : Module) : List String :=
  catMap stopTyNames (classifiedTops M)

/-- All preserved decorator names of the module's included declarations. -/
def decoRefsOf (M : Module) : List String :=
  catMap stopDecos (classifiedTops M)

/-- All names used by the module's included, rendered declarations (type
annotations and preserved decorators); an import is dead unless it binds one
of these (spec section 4.2, dead-import elimination). -/
def useRefsOf (M : Module) : List String :=
  tyRefsOf M ++ decoRefsOf M

/-! ## Cross-module type resolution (spec section 4.3, README Limitations) -/

/-- Builtin names that need no import in a stub. -/
def builtins : List String :=
  ["object", "int", "float", "bool", "str", "bytes", "complex",
   "dict", "list", "tuple", "set", "None"]

/-- Names of the module's own included classes: references to them need no import.
-/
def localNames (M : Module) : List String :=
  M.decls.filterMap fun d =>
    match d with
    | .cls n q _ _ _ _ => if includeQual q then some n else none
    | _ => none

/-- `n` is bound by a plain Python (non-`cimport`) import of the module.
Per the README Limitations, `cimport` bindings are C-level only and do not
make a name available to the stub. -/
def pyBound (M : Module) (n : String) : Bool :=
  M.imps.any fun i => !i.following && i.bound == n

/-- A referenced name needs no synthesized import: builtin, locally defined,
or bound by a Python import. -/
def PreResolved (M : Module) (n : String) : Prop :=
  n ∈ builtins ∨ n ∈ localNames M ∨ pyBound M n = true

instance (M : Module) (n : String) : Decidable (PreResolved M n) := by
  unfold PreResolved
  infer_instance

/-- A referenced name is resolvable: needs no import, or is covered by the
`__cimport_types__` override set. -/
def Resolved (M : Module) (n : String) : Prop :=
  PreResolved M n ∨ ∃ p ∈ M.cimportTypes, p.1 = n

instance (M : Module) (n : String) : Decidable (Resolved M n) := by
  unfold Resolved
  infer_instance

/-- The unresolved referenced type names of a module, each reported as an
UnresolvedTypeReference warning (spec sections 4.3 and 7). -/
def unresolvedOf (M : Module) : List String :=
  ((tyRefsOf M).dedup).filter fun n => decide (¬ Resolved M n)

/-- The resolution warnings of a module: exactly its unresolved referenced
type names. -/
def warningsOf (M : Module) : List String := unresolvedOf M

/-- Synthesized imports, as (owning module path, type name) pairs: per the
README Limitations, `cimport` chains are never followed; a referenced name
that is not builtin, not local, and not Python-bound gets a synthesized import
exactly when the `__cimport_types__` override set covers it. -/
def synthOf (M : Module) : List (String × String) :=
  ((tyRefsOf M).dedup).filterMap fun n =>
    if PreResolved M n then none
    else (M.cimportTypes.find? (fun p => p.1 == n)).map (fun p => (p.2, n))

/-- Synthesized imports sorted by owning-module path (spec section 4.4,
deterministic order). -/
def synthSorted (M : Module) : List (String × String) :=
  List.insertionSort (fun a b => a.1 ≤ b.1) (synthOf M)

/-- The original imports re-emitted in the stub: Python imports whose bound
name is used by an included declaration's rendered surface (dead-import
elimination, spec section 4.2); `cimport`s are never re-emitted (README
Limitations). -/
def keptImps (M : Module) : List ImpItem :=
  M.imps.filter fun i => !i.following && decide (i.bound ∈ useRefsOf M)

/-- Render one original import binding as a stub import line. -/
def renderImp (i : ImpItem) : SImp :=
  if i.isFrom then .fromImp i.srcMod i.origName i.bound
  else .plain i.srcMod i.bound

/-! ## Renderer (spec section 4.4) -/

/-- Replace unresolved names by the opaque type's name (spec section 4.3:
an unresolved reference is rendered using the opaque type, never left
dangling). -/
def substName (bad : List String) (n : String) : String :=
  if n ∈ bad then objTy.head else n

/-- Substitution on a type annotation. -/
def substTy (bad : List String) (t : TyAnn) : TyAnn :=
  ⟨substName bad t.head, t.args.map (substName bad)⟩

/-- Substitution on an optional type annotation. -/
def substOptTy (bad : List String) : Option TyAnn → Option TyAnn
  | none => none
  | some t => some (substTy bad t)

/-- Substitution on a signature. -/
def substSig (bad : List String) (s : FuncSig) : FuncSig :=
  ⟨s.params.map (fun p => (p.1, substOptTy bad p.2)), substOptTy bad s.ret⟩

/-- Substitution on a rendered class member. -/
def substSMember (bad : List String) : SMember → SMember
  | .mfun n sig doc => .mfun n (substSig bad sig) doc
  | .mattr n t => .mattr n (substTy bad t)

/-- Substitution on a rendered module-level item (decorators are names, not
type references, and are not substituted). -/
def substSTop (bad : List String) : STop → STop
  | .sclass n doc decos ms => .sclass n doc decos (ms.map (substSMember bad))
  | .sfun n doc decos sig => .sfun n doc decos (substSig bad sig)
  | .sattr n t => .sattr n (substTy bad t)

/-- A rendered stub file: path, module docstring, import lines (kept
originals first, in original order, then synthesized imports sorted by
owning-module path), then declarations in source order. -/
structure SFile where
  path : String
  doc : Option String
  imps : List SImp
  decls : List STop
deriving DecidableEq

/-- The full per-module pipeline: classify, resolve, render to a structured
stub. -/
def stubOf (M : Module) : SFile :=
  { path := M.path
    doc := M.doc
    imps := (keptImps M).map renderImp
            ++ (synthSorted M).map (fun p => .fromImp p.1 p.2 p.2)
    decls := (classifiedTops M).map (substSTop (unresolvedOf M)) }

/-! ## Text serialization -/

/-- Render a type annotation as text. -/
def renderTyTxt (t : TyAnn) : String :=
  match t.args with
  | [] => t.head
  | _ => t.head ++ "[" ++ String.intercalate ", " t.args ++ "]"

/-- Render an optional return annotation as text. -/
def renderRetTxt : Option TyAnn → String
  | none => ""
  | some t => " -> " ++ renderTyTxt t

/-- Render one parameter as text. -/
def renderParamTxt : String × Option TyAnn → String
  | (n, none) => n
  | (n, some t) => n ++ ": " ++ renderTyTxt t

/-- Render a signature as text. -/
def renderSigTxt (s : FuncSig) : String :=
  "(" ++ String.intercalate ", " (s.params.map renderParamTxt) ++ ")"
    ++ renderRetTxt s.ret

/-- Render a docstring at the given indentation. -/
def docTxt (ind : String) : Option String → List String
  | none => []
  | some d => [ind ++ "\"\"\"" ++ d ++ "\"\"\""]

/-- Render a stub class member as lines. -/
def renderSMemberTxt : SMember → List String
  | .mfun n sig doc =>
      ["    def " ++ n ++ renderSigTxt sig ++ ": ..."] ++ docTxt "        " doc
  | .mattr n t => ["    " ++ n ++ ": " ++ renderTyTxt t]

/-- Render a stub module-level item as lines. -/
def renderSTopTxt : STop → List String
  | .sclass n doc decos ms =>
      decos.map (fun d => "@" ++ d)
        ++ ["class " ++ n ++ ":"] ++ docTxt "    " doc
        ++ (if ms.isEmpty then ["    ..."] else catMap renderSMemberTxt ms)
  | .sfun n doc decos sig =>
      decos.map (fun d => "@" ++ d)
        ++ ["def " ++ n ++ renderSigTxt sig ++ ": ..."] ++ docTxt "    " doc
  | .sattr n t => [n ++ ": " ++ renderTyTxt t]

/-- Render a stub import line as text. -/
def renderSImpTxt : SImp → String
  | .plain m b =>
      if b = m then "import " ++ m else "import " ++ m ++ " as " ++ b
  | .fromImp mp o b =>
      if b = o then "from " ++ mp ++ " import " ++ o
      else "from " ++ mp ++ " import " ++ o ++ " as " ++ b

/-- Serialize a structured stub to its file text. -/
def renderText (s : SFile) : String :=
  String.intercalate "\n"
    (docTxt "" s.doc ++ s.imps.map renderSImpTxt ++ catMap renderSTopTxt s.decls)

/-! ## Re-parsing a rendered stub (for the idempotence property) -/

/-- Map a function with a running index (used to reassign source orders when
re-parsing a stub). -/
def withIdx (f : Nat → α → β) : Nat → List α → List β
  | _, [] => []
  | k, a :: as => f k a :: withIdx f (k + 1) as

/-- Re-parse a stub import line as an import binding. -/
def reparseImp (k : Nat) : SImp → ImpItem
  | .plain m b => ⟨b, m, m, false, false, k⟩
  | .fromImp mp o b => ⟨b, mp, o, true, false, k⟩

/-- Re-parse a stub class member: stub members are plain, Python-visible
declarations. -/
def reparseSMember (k : Nat) : SMember → Member
  | .mfun n sig doc => .method n .pub doc sig k
  | .mattr n t => .attr n .pub (some t) k

/-- Re-parse a stub module-level item. -/
def reparseSTop (k : Nat) : STop → TopDecl
  | .sclass n doc decos ms => .cls n .pub doc decos (withIdx reparseSMember 0 ms) k
  | .sfun n doc decos sig => .func n .pub doc decos sig k
  | .sattr n t => .attr n (some t) k

/-- Re-parse a rendered stub as a (stub-only) module: every declaration is
Python-visible, there are no overrides and no `cimport`s. -/
def reparse (s : SFile) : Module :=
  { path := s.path
    doc := s.doc
    imps := withIdx reparseImp 0 s.imps
    decls := withIdx reparseSTop 0 s.decls
    cimportTypes := []
    annotOverrides := [] }

/-! ## The fixture modules of `src/test_project/test2.pyx`

The fixture file contains two modules: `test_project.test2` (first part) and
`test_project.test` (second part, which `cimport`s the first).  They are
transliterated declaration by declaration. -/

/-- The `int` annotation. -/
def intTy : TyAnn := ty0 "int"

/-- Fixture module `test_project/test2.pyx`, first part of the fixture
file. -/
def test2Mod : Module :=
  { path := "test_project.test2"
    doc := some "This is a test of importing modules."
    imps :=
      [⟨"List", "typing", "List", true, false, 0⟩,
       ⟨"Dict", "typing", "Dict", true, false, 1⟩,
       ⟨"tup", "typing", "Tuple", true, false, 2⟩]
    decls :=
      [.func "imported_func" .hybrid none [] ⟨[], none⟩ 0,
       .cls "RegularClass" .pub none []
         [.attr "x" .pub (some intTy) 0,
          .attr "y" .pub (some (ty0 "float")) 1,
          .attr "z" .pub (some (ty0 "complex")) 2] 1,
       .func "returns_tuple" .pub none [] ⟨[], some ⟨"tup", ["int", "int"]⟩⟩ 2,
       .func "returns_dict" .pub none [] ⟨[], some ⟨"Dict", ["int", "int"]⟩⟩ 3,
       .cls "ImportedClass" .pub (some "A docstring for ImportedClass") []
         [.method "__init__" .pub (some "A docstring for __init__")
            ⟨[("self", none)], none⟩ 0,
          .method "public_method" .hybrid none ⟨[("self", none)], none⟩ 1,
          .getter "public_field" (some intTy) none 2,
          .setter "public_field" (some intTy) 3] 4,
       .attr "X" (some (ty0 "ImportedClass")) 5]
    cimportTypes := []
    annotOverrides := [] }

/-- Fixture module `test_project/test.pyx`, second part of the fixture file:
it `cimport`s `imported_func` and `ImportedClass` from `.test2` and sets
`__cimport_types__ = \x7bImportedClass\x7d`. -/
def testMod : Module :=
  { path := "test_project.test"
    doc := some "This is a module for testing stub file generation."
    imps :=
      [⟨"List", "typing", "List", true, false, 0⟩,
       ⟨"pprint", "pprint", "pprint", false, false, 1⟩,
       ⟨"dataclass", "dataclasses", "dataclass", true, false, 2⟩,
       ⟨"imported_func", ".test2", "imported_func", true, true, 3⟩,
       ⟨"ImportedClass", ".test2", "ImportedClass", true, true, 4⟩]
    decls :=
      [.cls "PythonClass" .pub (some "Injects type annotations when possible.")
         ["dataclass"]
         [.attr "x" .pub (some intTy) 0,
          .attr "y" .pub (some intTy) 1,
          .attr "z" .pub (some intTy) 2] 0,
       .func "func" .pub none [] ⟨[], some (ty0 "ImportedClass")⟩ 1,
       .cls "TestClass2" .pub none []
         [.method "__init__" .pub (some "A docstring for __init__")
            ⟨[("self", none)], none⟩ 0] 2,
       .cls "TestClass" .pub
         (some "This is a class for testing stub file generation.") []
         [.attr "a" .pub (some intTy) 0,
          .attr "_test_class_2" .pub (some (ty0 "TestClass2")) 1,
          .method "__init__" .pub (some "A docstring for __init__")
            ⟨[("self", none)], none⟩ 2,
          .method "test_class_2" .pub none
            ⟨[("self", none)], some (ty0 "TestClass2")⟩ 3,
          .method "b" .hybrid (some "A docstring for b")
            ⟨[("self", none)], none⟩ 4,
          .method "c" .pub (some "A docstring for c")
            ⟨[("self", none)], none⟩ 5,
          .method "d" .implOnly (some "A docstring for d (this should be ignored)")
            ⟨[("self", none)], none⟩ 6] 3,
       .func "private_function" .implOnly
         (some "Hides cdef functions from the stub.") []
         ⟨[("x", none)], none⟩ 4,
       .func "public_function" .hybrid
         (some "Shows cpdef functions in the stub.") []
         ⟨[("x", none)], none⟩ 5,
       .func "imported_class_test" .hybrid none [] ⟨[], none⟩ 6,
       .func "print_dict" .pub (some "Follows imports.") []
         ⟨[("d", some (ty0 "dict"))], some ⟨"List", ["bint"]⟩⟩ 7]
    cimportTypes := [("ImportedClass", "test_project.test2")]
    annotOverrides := [] }

/-- Demo module for the `__annotations__` override workaround of the README:
a `cpdef` function with no Python-facing type and an override mapping it to
`int`. -/
def ovMod : Module :=
  { path := "demo.ov"
    doc := none
    imps := []
    decls := [.func "f" .hybrid none [] ⟨[], none⟩ 0]
    cimportTypes := []
    annotOverrides := [("f", intTy)] }

/-! ## A package with an import-following chain (for the cross-module
leakage property) -/

/-- Module `pkg.a`: defines class `T`. -/
def modA : Module :=
  { path := "pkg.a", doc := none, imps := []
    decls := [.cls "T" .pub none [] [] 0]
    cimportTypes := [], annotOverrides := [] }

/-- Module `pkg.b`: `cimport`s `T` from `pkg.a` (an import-following
statement). -/
def modB : Module :=
  { path := "pkg.b", doc := none
    imps := [⟨"T", "pkg.a", "T", true, true, 0⟩]
    decls := []
    cimportTypes := [], annotOverrides := [] }

/-- Module `pkg.c`: `cimport`s module `pkg.b` (import-following) and
references `T` in a public signature, with no `__cimport_types__`
override. -/
def modC : Module :=
  { path := "pkg.c", doc := none
    imps := [⟨"b2", "pkg.b", "pkg.b", false, true, 0⟩]
    decls := [.func "g" .pub none [] ⟨[], some (ty0 "T")⟩ 0]
    cimportTypes := [], annotOverrides := [] }

/-- A lookup of a module by path in a package. -/
def findMod (P : List Module) (p : String) : Option Module :=
  P.find? (fun m => m.path == p)

/-- The module paths reachable in one import-following step. -/
def followingTargets (m : Module) : List String :=
  (m.imps.filter (fun i => i.following)).map (fun i => i.srcMod)

/-- Module `m` defines type `T` (as a Python-visible class). -/
def definesTy (m : Module) (T : String) : Bool :=
  decide (T ∈ localNames m)

/-- Follows the spec's words (section 4.3, step 2): whether some module
defining `T` is reachable from one of the frontier paths by a chain of import-following
statements, with fuel bounding the chain length. -/
def reachFrom (P : List Module) : Nat → List String → String → Bool
  | 0, _, _ => false
  | fuel + 1, frontier, T =>
    frontier.any fun p =>
      match findMod P p with
      | none => false
      | some m => definesTy m T || reachFrom P fuel (followingTargets m) T

/-- Follows the spec's words: `T` is reachable from module `start` through a
chain of import-following statements to a module that defines it. -/
def reachableFollowing (P : List Module) (start T : String) : Bool :=
  match findMod P start with
  | none => false
  | some m => reachFrom P P.length (followingTargets m) T

/-! ## Helper notions used by the theorems -/

/-- The type names appearing in the rendered signatures of a stub. -/
def stubTyNames (s : SFile) : List String :=
  catMap stopTyNames s.decls

/-- The docstrings appearing in a stub. -/
def smemDocs : SMember → List String
  | .mfun _ _ (some d) => [d]
  | _ => []

/-- The docstrings appearing in a stub item. -/
def stopDocs : STop → List String
  | .sclass _ doc _ ms => (doc.elim [] fun d => [d]) ++ catMap smemDocs ms
  | .sfun _ doc _ _ => doc.elim [] fun d => [d]
  | .sattr _ _ => []

/-- All docstrings of a stub. -/
def stubDocs (s : SFile) : List String :=
  (s.doc.elim [] fun d => [d]) ++ catMap stopDocs s.decls

/-- The names declared by a stub's module-level items. -/
def stopName : STop → String
  | .sclass n _ _ _ => n
  | .sfun n _ _ _ => n
  | .sattr n _ => n

/-- The names of a stub's classes. -/
def sclassNames (l : List STop) : List String :=
  l.filterMap fun t =>
    match t with
    | .sclass n _ _ _ => some n
    | _ => none

/-- The name a stub class member declares. -/
def smemName : SMember → String
  | .mfun n _ _ => n
  | .mattr n _ => n

/-- The members of the stub class named `n`, if the stub has one. -/
def stubClassMembers (s : SFile) (n : String) : List SMember :=
  match s.decls.findSome? (fun t =>
    match t with
    | .sclass n2 _ _ ms => if n2 = n then some ms else none
    | _ => none) with
  | some ms => ms
  | none => []

/-- The qualifier of a class member (getters and setters are ordinary Python
declarations, hence public). -/
def memQual : Member → Qual
  | .method _ q _ _ _ => q
  | .attr _ q _ _ => q
  | .getter _ _ _ _ => .pub
  | .setter _ _ _ => .pub

/-- The qualifier of a module-level declaration. -/
def topQual : TopDecl → Qual
  | .cls _ q _ _ _ _ => q
  | .func _ q _ _ _ _ => q
  | .attr _ _ _ => .pub

/-- Remove the implementation-only members of a class body. -/
def stripMembers (ms : List Member) : List Member :=
  ms.filter fun m => decide (memQual m ≠ .implOnly)

/-- Remove the implementation-only members of a declaration. -/
def stripTop : TopDecl → TopDecl
  | .cls n q doc decos ms k => .cls n q doc decos (stripMembers ms) k
  | t => t

/-- Remove every implementation-only declaration of a module. -/
def stripModule (M : Module) : Module :=
  { M with
    decls := (M.decls.filter fun d => decide (topQual d ≠ .implOnly)).map stripTop }

/-! ## Basic lemmas about the helper combinators -/

theorem mem_catMap {f : α → List β} {b : β} :
    ∀ {l : List α}, b ∈ catMap f l ↔ ∃ a ∈ l, b ∈ f a
  | [] => by simp [catMap]
  | a :: as => by
    simp [catMap, List.mem_append, mem_catMap (l := as)]

theorem catMap_map (f : β → List γ) (g : α → β) :
    ∀ l : List α, catMap f (l.map g) = catMap (fun a => f (g a)) l
  | [] => rfl
  | a :: as => by simp [catMap, catMap_map f g as]

theorem map_catMap (g : β → γ) (f : α → List β) :
    ∀ l : List α, (catMap f l).map g = catMap (fun a => (f a).map g) l
  | [] => rfl
  | a :: as => by simp [catMap, map_catMap g f as]

theorem catMap_congr {f g : α → List β} :
    ∀ {l : List α}, (∀ a ∈ l, f a = g a) → catMap f l = catMap g l
  | [], _ => rfl
  | a :: as, h => by
    simp only [catMap, h a (by simp)]
    rw [catMap_congr fun x hx => h x (by simp [hx])]

theorem filterMap_congr {f g : α → Option β} :
    ∀ {l : List α}, (∀ a ∈ l, f a = g a) → l.filterMap f = l.filterMap g
  | [], _ => rfl
  | a :: as, h => by
    simp only [List.filterMap_cons, h a (by simp)]
    rw [filterMap_congr fun x hx => h x (by simp [hx])]

theorem filter_congr' {p q : α → Bool} :
    ∀ {l : List α}, (∀ a ∈ l, p a = q a) → l.filter p = l.filter q
  | [], _ => rfl
  | a :: as, h => by
    simp only [List.filter_cons, h a (by simp)]
    rw [filter_congr' fun x hx => h x (by simp [hx])]

theorem filterMap_withIdx {f : Nat → α → β} {g : β → Option γ} {u : α → Option γ}
    (h : ∀ k a, g (f k a) = u a) :
    ∀ (k : Nat) (l : List α), (withIdx f k l).filterMap g = l.filterMap u
  | _, [] => rfl
  | k, a :: as => by
    simp only [withIdx, List.filterMap_cons, h k a, filterMap_withIdx h (k + 1) as]

theorem map_withIdx {f : Nat → α → β} {g : β → γ} {u : α → γ}
    (h : ∀ k a, g (f k a) = u a) :
    ∀ (k : Nat) (l : List α), (withIdx f k l).map g = l.map u
  | _, [] => rfl
  | k, a :: as => by
    simp only [withIdx, List.map_cons, h k a, map_withIdx h (k + 1) as]

theorem any_withIdx {f : Nat → α → β} {p : β → Bool} {q : α → Bool}
    (h : ∀ k a, p (f k a) = q a) :
    ∀ (k : Nat) (l : List α), (withIdx f k l).any p = l.any q
  | _, [] => rfl
  | k, a :: as => by
    simp only [withIdx, List.any_cons, h k a, any_withIdx h (k + 1) as]

theorem filterMap_filter_of_none {p : α → Bool} {g : α → Option β} :
    ∀ {l : List α}, (∀ a ∈ l, p a = false → g a = none) →
      (l.filter p).filterMap g = l.filterMap g
  | [], _ => rfl
  | a :: as, h => by
    have ih := filterMap_filter_of_none (l := as) fun x hx => h x (by simp [hx])
    cases hp : p a with
    | true => simp [List.filter_cons, hp, List.filterMap_cons, ih]
    | false =>
      simp [List.filter_cons, hp, List.filterMap_cons, ih, h a (by simp) hp]

/-! ## Removing implementation-only declarations does not change the stub
(spec: visibility exclusion) -/

theorem includeQual_eq_false {q : Qual} : includeQual q = false ↔ q = .implOnly := by
  cases q <;> simp [includeQual]

theorem setterTyFor_strip (ms : List Member) (n : String) :
    setterTyFor (stripMembers ms) n = setterTyFor ms n := by
  induction ms with
  | nil => rfl
  | cons m rest ih =>
    cases m with
    | setter n2 vty k =>
      simp [stripMembers, List.filter_cons, memQual, setterTyFor,
        List.findSome?_cons] at ih ⊢
      cases vty <;> simp_all [setterTyFor]
    | method n2 q doc sig k =>
      simp only [stripMembers, List.filter_cons] at ih ⊢
      cases hq : decide (memQual (Member.method n2 q doc sig k) ≠ .implOnly) <;>
        simp_all [setterTyFor, List.findSome?_cons, stripMembers]
    | attr n2 q ty k =>
      simp only [stripMembers, List.filter_cons] at ih ⊢
      cases hq : decide (memQual (Member.attr n2 q ty k) ≠ .implOnly) <;>
        simp_all [setterTyFor, List.findSome?_cons, stripMembers]
    | getter n2 r doc k =>
      simp [stripMembers, List.filter_cons, memQual, setterTyFor,
        List.findSome?_cons] at ih ⊢
      simpa [setterTyFor, stripMembers] using ih

theorem classifyMember_strip (ovs : List (String × TyAnn)) (cn : String)
    (ms : List Member) (m : Member) :
    classifyMember ovs cn (stripMembers ms) m = classifyMember ovs cn ms m := by
  cases m <;> simp [classifyMember, setterTyFor_strip]

theorem classifyMembers_strip (ovs : List (String × TyAnn)) (cn : String)
    (ms : List Member) :
    classifyMembers ovs cn (stripMembers ms) = classifyMembers ovs cn ms := by
  unfold classifyMembers
  rw [filterMap_congr fun m _ => classifyMember_strip ovs cn ms m]
  exact filterMap_filter_of_none fun m _ hm => by
    cases m with
    | method n q doc sig k =>
      have : q = .implOnly := by
        have := of_decide_eq_false hm
        simpa [memQual] using this
      simp [classifyMember, this, includeQual]
    | attr n q ty k =>
      have : q = .implOnly := by
        have := of_decide_eq_false hm
        simpa [memQual] using this
      simp [classifyMember, this, includeQual]
    | getter n r doc k => simp [memQual] at hm
    | setter n vty k => simp [memQual] at hm

theorem classifyTop_stripTop (ovs : List (String × TyAnn)) (d : TopDecl) :
    classifyTop ovs (stripTop d) = classifyTop ovs d := by
  cases d with
  | cls n q doc decos ms k => simp [stripTop, classifyTop, classifyMembers_strip]
  | func n q doc decos sig k => rfl
  | attr n ty k => rfl

theorem classifiedTops_strip (M : Module) :
    classifiedTops (stripModule M) = classifiedTops M := by
  show ((M.decls.filter _).map stripTop).filterMap (classifyTop M.annotOverrides)
      = M.decls.filterMap (classifyTop M.annotOverrides)
  rw [List.filterMap_map]
  refine Eq.trans (filterMap_congr (g := classifyTop M.annotOverrides)
    fun d _ => classifyTop_stripTop M.annotOverrides d) ?_
  exact filterMap_filter_of_none fun d _ hd => by
    cases d with
    | cls n q doc decos ms k =>
      have : q = .implOnly := by
        have := of_decide_eq_false hd
        simpa [topQual] using this
      simp [classifyTop, this, includeQual]
    | func n q doc decos sig k =>
      have : q = .implOnly := by
        have := of_decide_eq_false hd
        simpa [topQual] using this
      simp [classifyTop, this, includeQual]
    | attr n ty k => simp [topQual] at hd

theorem localNames_strip (M : Module) :
    localNames (stripModule M) = localNames M := by
  show ((M.decls.filter _).map stripTop).filterMap _ = M.decls.filterMap _
  rw [List.filterMap_map]
  rw [filterMap_congr (g := fun d =>
    match d with
    | TopDecl.cls n q _ _ _ _ => if includeQual q then some n else none
    | _ => none) fun d _ => by cases d <;> rfl]
  exact filterMap_filter_of_none fun d _ hd => by
    cases d with
    | cls n q doc decos ms k =>
      have : q = .implOnly := by
        have := of_decide_eq_false hd
        simpa [topQual] using this
      simp [this, includeQual]
    | func n q doc decos sig k => rfl
    | attr n ty k => rfl

theorem tyRefsOf_strip (M : Module) : tyRefsOf (stripModule M) = tyRefsOf M := by
  unfold tyRefsOf
  rw [classifiedTops_strip]

theorem decoRefsOf_strip (M : Module) : decoRefsOf (stripModule M) = decoRefsOf M := by
  unfold decoRefsOf
  rw [classifiedTops_strip]

theorem useRefsOf_strip (M : Module) : useRefsOf (stripModule M) = useRefsOf M := by
  unfold useRefsOf
  rw [tyRefsOf_strip, decoRefsOf_strip]

theorem preResolved_strip (M : Module) (n : String) :
    PreResolved (stripModule M) n ↔ PreResolved M n := by
  unfold PreResolved
  rw [localNames_strip]
  rfl

theorem resolved_strip (M : Module) (n : String) :
    Resolved (stripModule M) n ↔ Resolved M n := by
  unfold Resolved
  rw [preResolved_strip]
  rfl

theorem unresolvedOf_strip (M : Module) :
    unresolvedOf (stripModule M) = unresolvedOf M := by
  unfold unresolvedOf
  rw [tyRefsOf_strip]
  exact filter_congr' fun n _ => decide_eq_decide.mpr (by rw [resolved_strip])

theorem synthOf_strip (M : Module) : synthOf (stripModule M) = synthOf M := by
  unfold synthOf
  rw [tyRefsOf_strip]
  exact filterMap_congr fun n _ => by
    by_cases h : PreResolved M n
    · rw [if_pos h, if_pos ((preResolved_strip M n).mpr h)]
    · rw [if_neg h, if_neg fun hc => h ((preResolved_strip M n).mp hc)]
      rfl

theorem keptImps_strip (M : Module) : keptImps (stripModule M) = keptImps M := by
  show M.imps.filter _ = M.imps.filter _
  exact filter_congr' fun i _ => by
    rw [useRefsOf_strip]

theorem stubOf_strip (M : Module) : stubOf (stripModule M) = stubOf M := by
  unfold stubOf
  rw [classifiedTops_strip, unresolvedOf_strip, keptImps_strip]
  unfold synthSorted
  rw [synthOf_strip]
  rfl

/-! ## Re-parsing a stub and classifying it again -/

theorem map_id_of {f : α → α} :
    ∀ {l : List α}, (∀ a ∈ l, f a = a) → l.map f = l
  | [], _ => rfl
  | a :: as, h => by
    simp only [List.map_cons, h a (by simp)]
    rw [map_id_of fun x hx => h x (by simp [hx])]

theorem filterMap_const_none : ∀ l : List α, l.filterMap (fun _ => (none : Option β)) = []
  | [] => rfl
  | a :: as => by simp [List.filterMap_cons, filterMap_const_none as]

theorem mem_withIdx {f : Nat → α → β} {b : β} :
    ∀ {k : Nat} {l : List α}, b ∈ withIdx f k l → ∃ k2, ∃ a ∈ l, b = f k2 a := by
  intro k l
  induction l generalizing k with
  | nil => intro h; simp [withIdx] at h
  | cons a as ih =>
    intro h
    rcases List.mem_cons.mp h with h1 | h2
    · exact ⟨k, a, by simp, h1⟩
    · obtain ⟨k2, a2, ha2, hb⟩ := ih h2
      exact ⟨k2, a2, by simp [ha2], hb⟩

theorem keepDecos_idem (l : List String) : keepDecos (keepDecos l) = keepDecos l := by
  unfold keepDecos
  induction l with
  | nil => rfl
  | cons d ds ih =>
    by_cases h : d ∈ recognizedDecos
    · simp [List.filter_cons, h, ih]
    · simp [List.filter_cons, h, ih]

/-- The decorator-normal form of a stub item: re-filtering its decorators. -/
def normSTop : STop → STop
  | .sclass n doc decos ms => .sclass n doc (keepDecos decos) ms
  | .sfun n doc decos sig => .sfun n doc (keepDecos decos) sig
  | .sattr n t => .sattr n t

theorem renderSig_pub_nil (qn : String) (s : FuncSig) :
    renderSig [] qn .pub s = s := rfl

theorem classifyMember_reparse (cn : String) (ctx : List Member) (k : Nat)
    (m : SMember) :
    classifyMember [] cn ctx (reparseSMember k m) = some m := by
  cases m with
  | mfun n sig doc => rfl
  | mattr n t => rfl

theorem classifyTop_reparse (k : Nat) (t : STop) :
    classifyTop [] (reparseSTop k t) = some (normSTop t) := by
  cases t with
  | sclass n doc decos ms =>
    simp only [reparseSTop, classifyTop, includeQual, if_pos, normSTop]
    rw [show classifyMembers [] (n ++ ".") (withIdx reparseSMember 0 ms) = ms from ?_]
    · unfold classifyMembers
      rw [filterMap_withIdx (u := fun m => some m)
        (fun k2 a => classifyMember_reparse (n ++ ".") _ k2 a) 0 ms]
      exact (congrFun (List.filterMap_eq_map id) ms).trans (List.map_id ms)
  | sfun n doc decos sig => rfl
  | sattr n t => rfl

theorem classifiedTops_reparse (s : SFile) :
    classifiedTops (reparse s) = s.decls.map normSTop := by
  unfold classifiedTops
  show (withIdx reparseSTop 0 s.decls).filterMap (classifyTop []) = _
  rw [filterMap_withIdx (u := fun t => some (normSTop t))
    (fun k t => classifyTop_reparse k t) 0 s.decls]
  exact congrFun (List.filterMap_eq_map normSTop) s.decls

theorem normSTop_substSTop_of_classified {ovs : List (String × TyAnn)}
    {d : TopDecl} {t : STop} (h : classifyTop ovs d = some t) (bad : List String) :
    normSTop (substSTop bad t) = substSTop bad t := by
  cases d with
  | cls n q doc decos ms k =>
    by_cases hq : includeQual q = true
    · simp only [classifyTop, if_pos hq] at h
      cases h
      simp [substSTop, normSTop, keepDecos_idem]
    · simp only [classifyTop, if_neg hq] at h
      exact Option.noConfusion h
  | func n q doc decos sig k =>
    by_cases hq : includeQual q = true
    · simp only [classifyTop, if_pos hq] at h
      cases h
      simp [substSTop, normSTop, keepDecos_idem]
    · simp only [classifyTop, if_neg hq] at h
      exact Option.noConfusion h
  | attr n ty k =>
    simp only [classifyTop] at h
    cases h
    simp [substSTop, normSTop]

theorem classifiedTops_reparse_stub (M : Module) :
    classifiedTops (reparse (stubOf M)) = (stubOf M).decls := by
  rw [classifiedTops_reparse]
  refine map_id_of fun t ht => ?_
  have ht2 : t ∈ (classifiedTops M).map (substSTop (unresolvedOf M)) := ht
  obtain ⟨t0, ht0, rfl⟩ := List.mem_map.mp ht2
  obtain ⟨d, _, hd⟩ := List.mem_filterMap.mp ht0
  exact normSTop_substSTop_of_classified hd (unresolvedOf M)

/-! ## Substitution and the names of a rendered stub -/

theorem tyNames_subst (bad : List String) (t : TyAnn) :
    tyNames (substTy bad t) = (tyNames t).map (substName bad) := rfl

theorem optTyNames_subst (bad : List String) :
    ∀ o : Option TyAnn, optTyNames (substOptTy bad o) = (optTyNames o).map (substName bad)
  | none => rfl
  | some _ => rfl

theorem sigTyNames_subst (bad : List String) (s : FuncSig) :
    sigTyNames (substSig bad s) = (sigTyNames s).map (substName bad) := by
  unfold sigTyNames substSig
  rw [List.map_append]
  congr 1
  · rw [catMap_map, map_catMap]
    exact catMap_congr fun p _ => optTyNames_subst bad p.2
  · exact optTyNames_subst bad s.ret

theorem smemTyNames_subst (bad : List String) (m : SMember) :
    smemTyNames (substSMember bad m) = (smemTyNames m).map (substName bad) := by
  cases m with
  | mfun n sig doc => exact sigTyNames_subst bad sig
  | mattr n t => rfl

theorem stopTyNames_subst (bad : List String) (t : STop) :
    stopTyNames (substSTop bad t) = (stopTyNames t).map (substName bad) := by
  cases t with
  | sclass n doc decos ms =>
    show catMap smemTyNames (ms.map (substSMember bad))
        = (catMap smemTyNames ms).map (substName bad)
    rw [catMap_map, map_catMap]
    exact catMap_congr fun m _ => smemTyNames_subst bad m
  | sfun n doc decos sig => exact sigTyNames_subst bad sig
  | sattr n t => rfl

theorem stopDecos_subst (bad : List String) (t : STop) :
    stopDecos (substSTop bad t) = stopDecos t := by
  cases t <;> rfl

theorem stubTyNames_stub (M : Module) :
    stubTyNames (stubOf M) = (tyRefsOf M).map (substName (unresolvedOf M)) := by
  unfold stubTyNames stubOf tyRefsOf
  rw [catMap_map, map_catMap]
  exact catMap_congr fun t _ => stopTyNames_subst (unresolvedOf M) t

theorem stubDecos_stub (M : Module) :
    catMap stopDecos (stubOf M).decls = decoRefsOf M := by
  unfold stubOf decoRefsOf
  rw [catMap_map]
  exact catMap_congr fun t _ => stopDecos_subst (unresolvedOf M) t

theorem substName_not_bad {bad : List String} {n : String} (h : n ∉ bad) :
    substName bad n = n := by
  unfold substName
  rw [if_neg h]

theorem substName_bad {bad : List String} {n : String} (h : n ∈ bad) :
    substName bad n = "object" := by
  unfold substName
  rw [if_pos h]
  rfl

theorem substName_nil (n : String) : substName [] n = n := by
  unfold substName
  simp

theorem substTy_nil (t : TyAnn) : substTy [] t = t := by
  unfold substTy
  rw [map_id_of fun a _ => substName_nil a, substName_nil]

theorem substOptTy_nil : ∀ o : Option TyAnn, substOptTy [] o = o
  | none => rfl
  | some t => by rw [substOptTy, substTy_nil]

theorem substSig_nil (s : FuncSig) : substSig [] s = s := by
  unfold substSig
  rw [substOptTy_nil, map_id_of fun p _ => by rw [substOptTy_nil]]

theorem substSMember_nil (m : SMember) : substSMember [] m = m := by
  cases m with
  | mfun n sig doc => rw [substSMember, substSig_nil]
  | mattr n t => rw [substSMember, substTy_nil]

theorem substSTop_nil (t : STop) : substSTop [] t = t := by
  cases t with
  | sclass n doc decos ms =>
    rw [substSTop, map_id_of fun m _ => substSMember_nil m]
  | sfun n doc decos sig => rw [substSTop, substSig_nil]
  | sattr n t => rw [substSTop, substTy_nil]

/-! ## Resolution facts about a rendered stub -/

theorem not_unresolved_of_resolved {M : Module} {n : String}
    (h : Resolved M n) : n ∉ unresolvedOf M := by
  intro hmem
  have := List.mem_filter.mp hmem
  exact absurd h (of_decide_eq_true this.2)

theorem resolved_of_mem_refs {M : Module} {n : String} (h1 : n ∈ tyRefsOf M)
    (h2 : n ∉ unresolvedOf M) : Resolved M n := by
  by_contra hc
  exact h2 (List.mem_filter.mpr ⟨List.mem_dedup.mpr h1, decide_eq_true hc⟩)

theorem obj_not_unresolved (M : Module) : "object" ∉ unresolvedOf M :=
  not_unresolved_of_resolved (Or.inl (Or.inl (by simp [builtins])))

theorem sBound_renderImp (i : ImpItem) : sBound (renderImp i) = i.bound := by
  unfold renderImp
  by_cases h : i.isFrom = true
  · rw [if_pos h]; rfl
  · rw [if_neg h]; rfl

theorem mem_keptImps {M : Module} {i : ImpItem} :
    i ∈ keptImps M ↔ i ∈ M.imps ∧ i.following = false ∧ i.bound ∈ useRefsOf M := by
  unfold keptImps
  simp [List.mem_filter, and_assoc]

theorem local_mem_stub {M : Module} {n : String} (h : n ∈ localNames M) :
    n ∈ sclassNames (stubOf M).decls := by
  obtain ⟨d, hd, hn⟩ := List.mem_filterMap.mp h
  cases d with
  | cls n2 q doc decos ms k =>
    have hn2 : (if includeQual q = true then some n2 else none) = some n := hn
    by_cases hq : includeQual q = true
    · rw [if_pos hq] at hn2
      refine List.mem_filterMap.mpr ⟨substSTop (unresolvedOf M)
        (.sclass n2 doc (keepDecos decos) (classifyMembers M.annotOverrides (n2 ++ ".") ms)), ?_, hn2⟩
      refine List.mem_map.mpr ⟨_, List.mem_filterMap.mpr ⟨_, hd, ?_⟩, rfl⟩
      simp [classifyTop, hq]
    · rw [if_neg hq] at hn2
      exact Option.noConfusion hn2
  | func n2 q doc decos sig k => exact Option.noConfusion hn
  | attr n2 ty k => exact Option.noConfusion hn

theorem pyBound_mem_stub {M : Module} {n : String} (h : pyBound M n = true)
    (hu : n ∈ useRefsOf M) : ∃ x ∈ (stubOf M).imps, sBound x = n := by
  obtain ⟨i, hi, hp⟩ := List.any_eq_true.mp h
  have hp2 : i.following = false ∧ i.bound = n := by simpa using hp
  have hbound : i.bound = n := hp2.2
  have hkept : i ∈ keptImps M :=
    mem_keptImps.mpr ⟨hi, hp2.1, hbound ▸ hu⟩
  refine ⟨renderImp i, ?_, by rw [sBound_renderImp, hbound]⟩
  exact List.mem_append_left _ (List.mem_map.mpr ⟨i, hkept, rfl⟩)

theorem override_mem_stub {M : Module} {n : String} (h1 : n ∈ tyRefsOf M)
    (h2 : ¬ PreResolved M n) (p : String × String)
    (hp : M.cimportTypes.find? (fun q => q.1 == n) = some p) :
    ∃ x ∈ (stubOf M).imps, sBound x = n := by
  have hmem : (p.2, n) ∈ synthOf M := by
    refine List.mem_filterMap.mpr ⟨n, List.mem_dedup.mpr h1, ?_⟩
    rw [if_neg h2, hp]
    rfl
  have hmem2 : (p.2, n) ∈ synthSorted M :=
    ((List.perm_insertionSort _ (synthOf M)).mem_iff).mpr hmem
  refine ⟨.fromImp p.2 n n, ?_, rfl⟩
  exact List.mem_append_right _ (List.mem_map.mpr ⟨(p.2, n), hmem2, rfl⟩)

theorem stub_resolvable {M : Module} {n : String}
    (h : n ∈ stubTyNames (stubOf M)) :
    n ∈ builtins ∨ n ∈ sclassNames (stubOf M).decls ∨
      ∃ x ∈ (stubOf M).imps, sBound x = n := by
  rw [stubTyNames_stub] at h
  obtain ⟨m, hm, rfl⟩ := List.mem_map.mp h
  by_cases hbad : m ∈ unresolvedOf M
  · rw [substName_bad hbad]
    exact Or.inl (by simp [builtins])
  · rw [substName_not_bad hbad]
    have hres : Resolved M m := resolved_of_mem_refs hm hbad
    by_cases hpre : PreResolved M m
    · rcases hpre with hb | hl | hp
      · exact Or.inl hb
      · exact Or.inr (Or.inl (local_mem_stub hl))
      · exact Or.inr (Or.inr (pyBound_mem_stub hp (List.mem_append_left _ hm)))
    · rcases hres with hpre2 | ⟨p, hpmem, hpeq⟩
      · exact absurd hpre2 hpre
      · cases hq : M.cimportTypes.find? (fun q => q.1 == m) with
        | none =>
          have := List.find?_eq_none.mp hq p hpmem
          exact absurd (by simp [hpeq]) this
        | some q => exact Or.inr (Or.inr (override_mem_stub hm hpre q hq))

theorem unresolved_not_dangling {M : Module} {T : String}
    (h : T ∈ unresolvedOf M) : T ∉ stubTyNames (stubOf M) := by
  rw [stubTyNames_stub]
  intro hmem
  obtain ⟨m, hm, heq⟩ := List.mem_map.mp hmem
  by_cases hbad : m ∈ unresolvedOf M
  · rw [substName_bad hbad] at heq
    exact obj_not_unresolved M (heq ▸ h)
  · rw [substName_not_bad hbad] at heq
    exact hbad (heq ▸ h)

/-! ## The rendered stub is a fixed point of the pipeline -/

theorem localNames_reparse (s : SFile) :
    localNames (reparse s) = sclassNames s.decls := by
  show (withIdx reparseSTop 0 s.decls).filterMap _ = _
  rw [filterMap_withIdx (u := fun t =>
    match t with
    | STop.sclass n _ _ _ => some n
    | _ => none) (fun k t => by cases t <;> rfl) 0 s.decls]
  rfl

theorem pyBound_reparse (s : SFile) (n : String) :
    pyBound (reparse s) n = s.imps.any (fun x => sBound x == n) := by
  show (withIdx reparseImp 0 s.imps).any _ = _
  rw [any_withIdx (q := fun x => sBound x == n) (fun k x => by cases x <;> rfl) 0 s.imps]

theorem tyRefsOf_reparse_stub (M : Module) :
    tyRefsOf (reparse (stubOf M)) = stubTyNames (stubOf M) := by
  unfold tyRefsOf
  rw [classifiedTops_reparse_stub]
  rfl

theorem decoRefsOf_reparse_stub (M : Module) :
    decoRefsOf (reparse (stubOf M)) = decoRefsOf M := by
  unfold decoRefsOf
  rw [classifiedTops_reparse_stub]
  exact stubDecos_stub M

theorem mem_stubTyNames_of_resolved {M : Module} {n : String}
    (h1 : n ∈ tyRefsOf M) (h2 : Resolved M n) : n ∈ stubTyNames (stubOf M) := by
  rw [stubTyNames_stub]
  exact List.mem_map.mpr ⟨n, h1, substName_not_bad (not_unresolved_of_resolved h2)⟩

theorem preResolved_reparse_stub {M : Module} {n : String}
    (h : n ∈ stubTyNames (stubOf M)) : PreResolved (reparse (stubOf M)) n := by
  rcases stub_resolvable h with hb | hl | ⟨x, hx, hsb⟩
  · exact Or.inl hb
  · refine Or.inr (Or.inl ?_)
    rw [localNames_reparse]
    exact hl
  · refine Or.inr (Or.inr ?_)
    rw [pyBound_reparse]
    exact List.any_eq_true.mpr ⟨x, hx, by simp [hsb]⟩

theorem unresolvedOf_reparse_stub (M : Module) :
    unresolvedOf (reparse (stubOf M)) = [] := by
  unfold unresolvedOf
  rw [tyRefsOf_reparse_stub]
  rw [List.filter_eq_nil_iff]
  intro n hn
  have h1 : n ∈ stubTyNames (stubOf M) := List.mem_dedup.mp hn
  have h2 : Resolved (reparse (stubOf M)) n := Or.inl (preResolved_reparse_stub h1)
  simp [h2]

theorem synthOf_reparse (s : SFile) : synthOf (reparse s) = [] := by
  unfold synthOf
  refine Eq.trans (filterMap_congr (g := fun _ => none) fun n _ => ?_)
    (filterMap_const_none _)
  by_cases h : PreResolved (reparse s) n
  · rw [if_pos h]
  · rw [if_neg h]
    rfl

theorem bound_reparseImp (k : Nat) (x : SImp) :
    (reparseImp k x).bound = sBound x := by
  cases x <;> rfl

theorem following_reparseImp (k : Nat) (x : SImp) :
    (reparseImp k x).following = false := by
  cases x <;> rfl

theorem keptImps_reparse_stub (M : Module) :
    keptImps (reparse (stubOf M)) = (reparse (stubOf M)).imps := by
  unfold keptImps
  rw [List.filter_eq_self]
  intro i hi
  obtain ⟨k, x, hx, rfl⟩ := mem_withIdx hi
  rw [following_reparseImp, bound_reparseImp]
  show (!false && decide (sBound x ∈ useRefsOf (reparse (stubOf M)))) = true
  simp only [Bool.not_false, Bool.true_and, decide_eq_true_eq]
  unfold useRefsOf
  rw [tyRefsOf_reparse_stub, decoRefsOf_reparse_stub]
  rcases List.mem_append.mp hx with hkept | hsynth
  · obtain ⟨i0, hi0, rfl⟩ := List.mem_map.mp hkept
    obtain ⟨hi0m, hi0f, hi0u⟩ := mem_keptImps.mp hi0
    rw [sBound_renderImp]
    rcases List.mem_append.mp hi0u with hty | hdeco
    · refine List.mem_append_left _ (mem_stubTyNames_of_resolved hty ?_)
      refine Or.inl (Or.inr (Or.inr (List.any_eq_true.mpr ⟨i0, hi0m, ?_⟩)))
      simp [hi0f]
    · exact List.mem_append_right _ hdeco
  · obtain ⟨p, hp, rfl⟩ := List.mem_map.mp hsynth
    have hp2 : p ∈ synthOf M :=
      ((List.perm_insertionSort _ (synthOf M)).mem_iff).mp hp
    obtain ⟨n, hn, hsome⟩ := List.mem_filterMap.mp hp2
    by_cases hpre : PreResolved M n
    · rw [if_pos hpre] at hsome
      exact Option.noConfusion hsome
    · rw [if_neg hpre] at hsome
      obtain ⟨q, hq, hpq⟩ := Option.map_eq_some'.mp hsome
      have hqmem : q ∈ M.cimportTypes := List.mem_of_find?_eq_some hq
      have hqeq : q.1 = n := by
        have := List.find?_some hq
        simpa using this
      have hres : Resolved M n := Or.inr ⟨q, hqmem, hqeq⟩
      have hty : n ∈ tyRefsOf M := List.mem_dedup.mp hn
      have hsb : sBound (SImp.fromImp p.1 p.2 p.2) = n := by
        rw [← hpq]
        rfl
      rw [hsb]
      exact List.mem_append_left _ (mem_stubTyNames_of_resolved hty hres)

theorem imps_roundtrip (s : SFile) :
    ((reparse s).imps).map renderImp = s.imps := by
  show (withIdx reparseImp 0 s.imps).map renderImp = s.imps
  rw [map_withIdx (u := fun x => x) (fun k x => by cases x <;> rfl) 0 s.imps]
  exact List.map_id s.imps

theorem stubOf_reparse (M : Module) :
    stubOf (reparse (stubOf M)) = stubOf M := by
  calc stubOf (reparse (stubOf M))
      = { path := (reparse (stubOf M)).path
          doc := (reparse (stubOf M)).doc
          imps := (keptImps (reparse (stubOf M))).map renderImp
            ++ (synthSorted (reparse (stubOf M))).map (fun p => .fromImp p.1 p.2 p.2)
          decls := (classifiedTops (reparse (stubOf M))).map
            (substSTop (unresolvedOf (reparse (stubOf M)))) } := rfl
    _ = stubOf M := by
        rw [keptImps_reparse_stub, unresolvedOf_reparse_stub, classifiedTops_reparse_stub]
        rw [show synthSorted (reparse (stubOf M)) = [] from by
          unfold synthSorted
          rw [synthOf_reparse]
          rfl]
        rw [imps_roundtrip]
        rw [map_id_of fun t _ => substSTop_nil t]
        simp only [List.map_nil, List.append_nil]
        rfl

/-! ## Order projections (for the ordering invariant) -/

/-- The source order of a module-level declaration. -/
def topOrd : TopDecl → Nat
  | .cls _ _ _ _ _ k => k
  | .func _ _ _ _ _ k => k
  | .attr _ _ k => k

/-- The source order of a class member. -/
def memOrd : Member → Nat
  | .method _ _ _ _ k => k
  | .attr _ _ _ k => k
  | .getter _ _ _ k => k
  | .setter _ _ k => k

theorem filterMap_eq_map_filter {p : α → Bool} {g : α → Option β} (dflt : β)
    (hnone : ∀ a, p a = false → g a = none)
    (hsome : ∀ a, p a = true → (g a).isSome) :
    ∀ l : List α, l.filterMap g = (l.filter p).map (fun a => (g a).getD dflt)
  | [] => rfl
  | a :: as => by
    have ih := filterMap_eq_map_filter dflt hnone hsome as
    cases hp : p a with
    | true =>
      obtain ⟨b, hb⟩ := Option.isSome_iff_exists.mp (hsome a hp)
      simp [List.filterMap_cons, List.filter_cons, hp, hb, ih]
    | false =>
      simp [List.filterMap_cons, List.filter_cons, hp, hnone a hp, ih]

theorem classifyMembers_eq_map_filter (ovs : List (String × TyAnn)) (cn : String)
    (ms : List Member) :
    classifyMembers ovs cn ms = (ms.filter keepMember).map
      (fun m => (classifyMember ovs cn ms m).getD (.mattr "" objTy)) := by
  refine filterMap_eq_map_filter _ (fun m hm => ?_) (fun m hm => ?_) ms
  · cases m with
    | method n q doc sig k =>
      have hq : includeQual q = false := hm
      simp [classifyMember, hq]
    | attr n q ty k =>
      have hq : includeQual q = false := hm
      simp [classifyMember, hq]
    | getter n r doc k => exact absurd hm (by simp [keepMember])
    | setter n vty k => rfl
  · cases m with
    | method n q doc sig k =>
      have hq : includeQual q = true := hm
      simp [classifyMember, hq]
    | attr n q ty k =>
      have hq : includeQual q = true := hm
      simp [classifyMember, hq]
    | getter n r doc k => simp [classifyMember]
    | setter n vty k => exact absurd hm (by simp [keepMember])

theorem classifiedTops_eq_map_filter (M : Module) :
    classifiedTops M = (M.decls.filter keepTop).map
      (fun d => (classifyTop M.annotOverrides d).getD (.sattr "" objTy)) := by
  refine filterMap_eq_map_filter _ (fun d hd => ?_) (fun d hd => ?_) M.decls
  · cases d with
    | cls n q doc decos ms k =>
      have hq : includeQual q = false := hd
      simp [classifyTop, hq]
    | func n q doc decos sig k =>
      have hq : includeQual q = false := hd
      simp [classifyTop, hq]
    | attr n ty k => exact absurd hd (by simp [keepTop])
  · cases d with
    | cls n q doc decos ms k =>
      have hq : includeQual q = true := hd
      simp [classifyTop, hq]
    | func n q doc decos sig k =>
      have hq : includeQual q = true := hd
      simp [classifyTop, hq]
    | attr n ty k => simp [classifyTop]

instance : IsTotal (String × String) (fun a b => a.1 ≤ b.1) :=
  ⟨fun a b => le_total a.1 b.1⟩

instance : IsTrans (String × String) (fun a b => a.1 ≤ b.1) :=
  ⟨fun _ _ _ h1 h2 => le_trans h1 h2⟩

/-! # The claims -/

/-- C1: implementation-only native declarations (`cdef` members and
functions) never appear in the rendered stub, nor does any documentation
attached to them: removing every implementation-only declaration from a
module leaves the rendered stub unchanged, and in the fixture, neither
`TestClass.d` nor `private_function` (nor their docstrings) occurs in the
stub of the `test` module. -/
theorem claim_C1 :
    (∀ M : Module, stubOf (stripModule M) = stubOf M) ∧
    "d" ∉ (stubClassMembers (stubOf testMod) "TestClass").map smemName ∧
    "private_function" ∉ (stubOf testMod).decls.map stopName ∧
    "A docstring for d (this should be ignored)" ∉ stubDocs (stubOf testMod) ∧
    "Hides cdef functions from the stub." ∉ stubDocs (stubOf testMod) :=
  ⟨fun M => stubOf_strip M, by decide, by decide, by decide, by decide⟩

/-- C2 counterexample: in the package `[modA, modB, modC]`, the type `T` is
reachable from `pkg.c` through a chain of import-following (`cimport`)
statements (`pkg.c` cimports `pkg.b`, which cimports `T` from `pkg.a`), yet
the rendered stub of `pkg.c` contains no import at all (in particular no
synthesized import of `T` from `pkg.a`), and an UnresolvedTypeReference
warning for `T` is produced instead — contradicting the claim that a
synthesized import must appear whenever an import-following path exists. -/
theorem claim_C2_counterexample :
    reachableFollowing [modA, modB, modC] "pkg.c" "T" = true ∧
    (stubOf modC).imps = [] ∧
    warningsOf modC = ["T"] := by decide

/-- C2 (amended): `cimport` chains are never followed (README Limitations);
for a referenced type `T` that is neither builtin, nor locally defined, nor
bound by a plain Python import, a synthesized import appears in the stub
iff `T` is covered by the module's `__cimport_types__` override set (the import
is synthesized from the override's owning module); otherwise `T` is
reported as an UnresolvedTypeReference warning. -/
theorem claim_C2_amended (M : Module) (T : String) (h1 : T ∈ tyRefsOf M)
    (h2 : ¬ PreResolved M T) :
    (∀ p, M.cimportTypes.find? (fun q => q.1 == T) = some p →
        SImp.fromImp p.2 T T ∈ (stubOf M).imps) ∧
    (M.cimportTypes.find? (fun q => q.1 == T) = none → T ∈ warningsOf M) := by
  constructor
  · intro p hp
    have hmem : (p.2, T) ∈ synthOf M := by
      refine List.mem_filterMap.mpr ⟨T, List.mem_dedup.mpr h1, ?_⟩
      rw [if_neg h2, hp]
      rfl
    have hmem2 : (p.2, T) ∈ synthSorted M :=
      ((List.perm_insertionSort _ (synthOf M)).mem_iff).mpr hmem
    exact List.mem_append_right _ (List.mem_map.mpr ⟨(p.2, T), hmem2, rfl⟩)
  · intro hnone
    have hres : ¬ Resolved M T := by
      rintro (hpre | ⟨p, hpm, hpe⟩)
      · exact h2 hpre
      · exact absurd (by simp [hpe]) (List.find?_eq_none.mp hnone p hpm)
    exact List.mem_filter.mpr ⟨List.mem_dedup.mpr h1, decide_eq_true hres⟩

/-- Witness for C2 (amended), at the fixture module `test`: the type
`ImportedClass`, referenced by `func`'s return annotation and covered by
`__cimport_types__`, receives the synthesized import
`from test_project.test2 import ImportedClass`. -/
theorem claim_C2_witness :
    SImp.fromImp "test_project.test2" "ImportedClass" "ImportedClass"
      ∈ (stubOf testMod).imps :=
  (claim_C2_amended testMod "ImportedClass" (by decide) (by decide)).1
    ("ImportedClass", "test_project.test2") (by decide)

/-- C3: a module-level Python import appears in the rendered stub iff its
bound name is referenced by some included declaration's rendered surface
(dead-import elimination); concretely, `import pprint` (used only inside a
function body) is omitted from the `test` stub while `from typing import
List` (used in `print_dict`'s rendered return annotation) is kept. -/
theorem claim_C3 (M : Module) (i : ImpItem) (h1 : i ∈ M.imps)
    (h2 : i.following = false) :
    (i ∈ keptImps M ↔ i.bound ∈ useRefsOf M) ∧
    ((stubOf M).imps = (keptImps M).map renderImp
        ++ (synthSorted M).map (fun p => .fromImp p.1 p.2 p.2)) ∧
    SImp.plain "pprint" "pprint" ∉ (stubOf testMod).imps ∧
    SImp.fromImp "typing" "List" "List" ∈ (stubOf testMod).imps ∧
    "List" ∈ useRefsOf testMod ∧
    "pprint" ∉ useRefsOf testMod ∧
    SImp.fromImp "typing" "List" "List" ∉ (stubOf test2Mod).imps := by
  refine ⟨?_, rfl, by decide, by decide, by decide, by decide, by decide⟩
  constructor
  · intro hk
    exact (mem_keptImps.mp hk).2.2
  · intro hb
    exact mem_keptImps.mpr ⟨h1, h2, hb⟩

/-- Witness for C3, at the `pprint` import of the fixture module `test`. -/
theorem claim_C3_witness :
    (⟨"pprint", "pprint", "pprint", false, false, 1⟩ ∈ keptImps testMod ↔
      "pprint" ∈ useRefsOf testMod) ∧
    ((stubOf testMod).imps = (keptImps testMod).map renderImp
        ++ (synthSorted testMod).map (fun p => .fromImp p.1 p.2 p.2)) ∧
    SImp.plain "pprint" "pprint" ∉ (stubOf testMod).imps ∧
    SImp.fromImp "typing" "List" "List" ∈ (stubOf testMod).imps ∧
    "List" ∈ useRefsOf testMod ∧
    "pprint" ∉ useRefsOf testMod ∧
    SImp.fromImp "typing" "List" "List" ∉ (stubOf test2Mod).imps :=
  claim_C3 testMod ⟨"pprint", "pprint", "pprint", false, false, 1⟩
    (by decide) (by decide)

/-- C4: a property getter/setter pair sharing a name renders as exactly one
attribute declaration typed by the getter's return annotation: the
classifier maps every setter to no output, maps a getter with return type
`t` to the single attribute `n: t` (ignoring the setter's type — getter
wins), and in the fixture class `ImportedClass` exactly one member named
`public_field` is rendered, an attribute of type `int`. -/
theorem claim_C4 :
    (∀ (ovs : List (String × TyAnn)) (cn : String) (ctx : List Member)
        (n : String) (vty : Option TyAnn) (k : Nat),
        classifyMember ovs cn ctx (.setter n vty k) = none) ∧
    (∀ (ovs : List (String × TyAnn)) (cn : String) (ctx : List Member)
        (n : String) (t : TyAnn) (doc : Option String) (k : Nat),
        classifyMember ovs cn ctx (.getter n (some t) doc k) = some (.mattr n t)) ∧
    (stubClassMembers (stubOf test2Mod) "ImportedClass").filter
        (fun m => smemName m == "public_field") = [.mattr "public_field" intTy] :=
  ⟨fun _ _ _ _ _ _ => rfl, fun _ _ _ _ _ _ _ => rfl, by decide⟩

/-- C5: a public native (`cpdef`) member with no attached Python-facing
annotation renders with the opaque `object` type unless an
`__annotations__` override exists for its qualified name, in which case the
override's type is rendered: the classifier's output on such a function is
exactly `def n(...) -> (override or object)`, the fixture `cpdef int imported_func()`
renders as `def imported_func() -> object`, and the
override demo module renders `def f() -> int`. -/
theorem claim_C5 :
    (∀ (ovs : List (String × TyAnn)) (n : String) (doc : Option String)
        (decos : List String) (ps : List (String × Option TyAnn)) (k : Nat),
        classifyTop ovs (.func n .hybrid doc decos ⟨ps, none⟩ k)
          = some (.sfun n doc (keepDecos decos)
              ⟨ps, some ((lookupOv ovs n).getD objTy)⟩)) ∧
    STop.sfun "imported_func" none [] ⟨[], some objTy⟩ ∈ (stubOf test2Mod).decls ∧
    (stubOf ovMod).decls = [.sfun "f" none [] ⟨[], some intTy⟩] := by
  refine ⟨fun ovs n doc decos ps k => ?_, by decide, by decide⟩
  cases h : lookupOv ovs n with
  | some t => simp [classifyTop, includeQual, renderSig, renderRet, h]
  | none => simp [classifyTop, includeQual, renderSig, renderRet, h]

/-- C6: an unresolved type reference is reported as a warning and rendered
as the opaque type, never left dangling in the output; and every type name
appearing in a rendered signature is a builtin, a class of the stub itself,
or bound by an import line present in the rendered stub. -/
theorem claim_C6 (M : Module) (T : String) :
    (T ∈ unresolvedOf M → T ∈ warningsOf M ∧ T ∉ stubTyNames (stubOf M)) ∧
    (T ∈ stubTyNames (stubOf M) →
      T ∈ builtins ∨ T ∈ sclassNames (stubOf M).decls ∨
        ∃ x ∈ (stubOf M).imps, sBound x = T) :=
  ⟨fun h => ⟨h, unresolved_not_dangling h⟩, fun h => stub_resolvable h⟩

/-- Witness for C6: in the fixture module `test`, the unresolved name
`bint` is warned about and absent from the rendered signatures, and the
rendered name `ImportedClass` is resolvable within the stub. -/
theorem claim_C6_witness :
    ("bint" ∈ warningsOf testMod ∧ "bint" ∉ stubTyNames (stubOf testMod)) ∧
    ("ImportedClass" ∈ builtins ∨
      "ImportedClass" ∈ sclassNames (stubOf testMod).decls ∨
        ∃ x ∈ (stubOf testMod).imps, sBound x = "ImportedClass") :=
  ⟨(claim_C6 testMod "bint").1 (by decide),
   (claim_C6 testMod "ImportedClass").2 (by decide)⟩

/-- C7: the pipeline is deterministic (rendering is a function of the
module, so rendering the same classified, resolved module twice yields the
same structured stub and byte-identical text), and idempotent: re-parsing a
rendered stub and re-running the whole pipeline on it reproduces the same
stub, structurally and byte for byte. -/
theorem claim_C7 (M : Module) :
    stubOf (reparse (stubOf M)) = stubOf M ∧
    renderText (stubOf (reparse (stubOf M))) = renderText (stubOf M) :=
  ⟨stubOf_reparse M, by rw [stubOf_reparse]⟩

/-- C8: no pipeline stage reorders declarations: the classifier's output is
the original list filtered (a map of a filter, at module level and inside
every class), so strictly increasing source orders stay strictly
increasing; and the rendered stub emits the kept original imports first, in
original order, followed by the synthesized imports sorted by
owning-module path, followed by the declarations in source order. -/
theorem claim_C8 (M : Module) :
    (List.Pairwise (· < ·) (M.decls.map topOrd) →
      List.Pairwise (· < ·) ((M.decls.filter keepTop).map topOrd)) ∧
    (∀ ms : List Member, List.Pairwise (· < ·) (ms.map memOrd) →
      List.Pairwise (· < ·) ((ms.filter keepMember).map memOrd)) ∧
    (classifiedTops M = (M.decls.filter keepTop).map
        (fun d => (classifyTop M.annotOverrides d).getD (.sattr "" objTy))) ∧
    (∀ (ovs : List (String × TyAnn)) (cn : String) (ms : List Member),
        classifyMembers ovs cn ms = (ms.filter keepMember).map
          (fun m => (classifyMember ovs cn ms m).getD (.mattr "" objTy))) ∧
    ((stubOf M).decls = (classifiedTops M).map (substSTop (unresolvedOf M))) ∧
    ((stubOf M).imps = (keptImps M).map renderImp
        ++ (synthSorted M).map (fun p => .fromImp p.1 p.2 p.2)) ∧
    (keptImps M = M.imps.filter
        (fun i => !i.following && decide (i.bound ∈ useRefsOf M))) ∧
    List.Sorted (· ≤ ·) ((synthSorted M).map Prod.fst) := by
  refine ⟨?_, ?_, classifiedTops_eq_map_filter M,
    fun ovs cn ms => classifyMembers_eq_map_filter ovs cn ms, rfl, rfl, rfl, ?_⟩
  · intro h
    exact h.sublist ((List.filter_sublist M.decls).map topOrd)
  · intro ms h
    exact h.sublist ((List.filter_sublist ms).map memOrd)
  · unfold synthSorted
    exact List.pairwise_map.mpr
      (List.sorted_insertionSort
        (fun a b : String × String => a.1 ≤ b.1) (synthOf M))

/-- Witness for C8, at the fixture module `test`: its source orders are
strictly increasing, and the classifier's filtered output preserves that. -/
theorem claim_C8_witness :
    List.Pairwise (· < ·) ((testMod.decls.filter keepTop).map topOrd) :=
  (claim_C8 testMod).1 (by decide)

/-- C9: visibility classification depends only on the native qualifier,
never on leading-underscore naming: the membership decision for attributes
and methods is invariant under renaming, and in the fixture the `cdef
public` attribute `_test_class_2` (underscore name) is rendered with its
declared static type `TestClass2` while the underscore-free `cdef` method
`d` is excluded. -/
theorem claim_C9 :
    (∀ (q : Qual) (n1 n2 : String) (ty1 ty2 : Option TyAnn) (k1 k2 : Nat),
        keepMember (.attr n1 q ty1 k1) = keepMember (.attr n2 q ty2 k2)) ∧
    (∀ (q : Qual) (n1 n2 : String) (d1 d2 : Option String) (s1 s2 : FuncSig)
        (k1 k2 : Nat),
        keepMember (.method n1 q d1 s1 k1) = keepMember (.method n2 q d2 s2 k2)) ∧
    SMember.mattr "_test_class_2" (ty0 "TestClass2")
      ∈ stubClassMembers (stubOf testMod) "TestClass" ∧
    "d" ∉ (stubClassMembers (stubOf testMod) "TestClass").map smemName :=
  ⟨fun _ _ _ _ _ _ _ => rfl, fun _ _ _ _ _ _ _ _ _ => rfl, by decide, by decide⟩

/-- C10: an import whose bound name is referenced only by a preserved
interface-affecting decorator is retained in the rendered stub together
with that decorator: any non-`cimport` import whose bound name occurs among
the preserved decorator names is kept, and in the fixture the
`from dataclasses import dataclass` import is kept while the rendered
`PythonClass` still carries the `@dataclass` decorator. -/
theorem claim_C10 (M : Module) (i : ImpItem) (h1 : i ∈ M.imps)
    (h2 : i.following = false) (h3 : i.bound ∈ decoRefsOf M) :
    renderImp i ∈ (stubOf M).imps ∧
    SImp.fromImp "dataclasses" "dataclass" "dataclass" ∈ (stubOf testMod).imps ∧
    STop.sclass "PythonClass" (some "Injects type annotations when possible.")
        ["dataclass"] [.mattr "x" intTy, .mattr "y" intTy, .mattr "z" intTy]
      ∈ (stubOf testMod).decls := by
  refine ⟨?_, by decide, by decide⟩
  have hk : i ∈ keptImps M :=
    mem_keptImps.mpr ⟨h1, h2, List.mem_append_right _ h3⟩
  exact List.mem_append_left _ (List.mem_map.mpr ⟨i, hk, rfl⟩)

/-- Witness for C10, at the `dataclass` import of the fixture module
`test`. -/
theorem claim_C10_witness :
    renderImp ⟨"dataclass", "dataclasses", "dataclass", true, false, 2⟩
        ∈ (stubOf testMod).imps ∧
    SImp.fromImp "dataclasses" "dataclass" "dataclass" ∈ (stubOf testMod).imps ∧
    STop.sclass "PythonClass" (some "Injects type annotations when possible.")
        ["dataclass"] [.mattr "x" intTy, .mattr "y" intTy, .mattr "z" intTy]
      ∈ (stubOf testMod).decls :=
  claim_C10 testMod ⟨"dataclass", "dataclasses", "dataclass", true, false, 2⟩
    (by decide) (by decide) (by decide)

end StubGen
